import Mathlib

/-!
Verification development for the TF Detection API converter
(`datumaro/plugins/tf_detection_api_format/converter.py`): a shallow
embedding of the instance-grouping and feature-encoding logic, with
theorems about its behaviour.
-/

set_option maxRecDepth 4000

deriving instance DecidableEq for Except

/-- Kinds of dataset annotations (the converter cares about `bbox` and `mask`;
every other kind is ignored by the instance grouper). -/
inductive AnnKind
  | label | mask | points | polygon | polyline | bbox | caption
deriving DecidableEq, Repr

/-- A raster mask image: rows of pixel values. -/
abbrev MaskImg := List (List Nat)

/-- A byte string, as a list of byte values. -/
abbrev ByteStr := List Nat

/-- Modelled from the spec: an annotation is a tagged union over
bounding-box / mask / other-ignored kinds, with attributes: kind,
spatial area, a bounding rectangle (x, y, width, height), raw pixel
mask data, an optional integer group id (0 encodes the empty/falsy
group id), and an optional label reference.  The concrete classes
live outside the converter source. -/
structure Ann where
  type : AnnKind
  x : ℚ := 0
  y : ℚ := 0
  w : ℚ := 0
  h : ℚ := 0
  area : ℚ := 0
  image : MaskImg := []
  group : Nat := 0
  label : Option Nat := none
deriving DecidableEq, Repr

/-- Modelled from the spec: the bounding rectangle attribute of an
annotation (`get_bbox` of the classes outside the converter source). -/
def Ann.get_bbox (a : Ann) : ℚ × ℚ × ℚ × ℚ := (a.x, a.y, a.w, a.h)

/-- Modelled from the spec: the spatial-area attribute of an annotation
(`get_area` of the classes outside the converter source). -/
def Ann.get_area (a : Ann) : ℚ := a.area

/-- Converter configuration flags (`save_images`, `save_masks`). -/
structure Config where
  saveImages : Bool := false
  saveMasks : Bool := false
deriving DecidableEq, Repr

/-- Modelled from the spec: optional image metadata of a dataset item:
pixel size as (height, width), and optional raw pixel data. -/
structure Image where
  size : Nat × Nat
  hasData : Bool := false
  data : MaskImg := []
deriving DecidableEq, Repr

/-- Modelled from the spec: a dataset item exposes an id, a list of
annotations, and optional image metadata. -/
structure Item where
  id : String
  image : Option Image := none
  anns : List Ann := []
deriving DecidableEq, Repr

/-- The set of characters kept by `_make_printable`: Python
`string.printable`, i.e. codes 32..126 together with the whitespace
controls 9..13. -/
def isPrintableAscii (c : Char) : Bool :=
  (32 ≤ c.toNat && c.toNat ≤ 126) || (9 ≤ c.toNat && c.toNat ≤ 13)

/-- `_make_printable`: keep exactly the printable characters of a string
(`''.join(filter(lambda x: x in _printable, s))`). -/
def makePrintable (s : String) : String :=
  String.mk (s.data.filter isPrintableAscii)

/-- UTF-8 encoding of one character, as byte values. -/
def utf8EncodeCh (c : Char) : ByteStr :=
  let n := c.toNat
  if n < 128 then [n]
  else if n < 2048 then [192 + n / 64, 128 + n % 64]
  else if n < 65536 then
    [224 + n / 4096, 128 + (n / 64) % 64, 128 + n % 64]
  else
    [240 + n / 262144, 128 + (n / 4096) % 64, 128 + (n / 64) % 64,
      128 + n % 64]

/-- UTF-8 encoding of a string, as byte values (`s.encode('utf-8')`). -/
def utf8Bytes (s : String) : ByteStr :=
  s.data.flatMap utf8EncodeCh

/-- `get_label`: resolve a label reference through the catalog
(`label_categories.items[label_id].name if label_id is not None else ''`);
an out-of-range index is an error, as in the source. -/
def getLabelName (names : List String) : Option Nat → Except String String
  | none => Except.ok ""
  | some i =>
    match names[i]? with
    | some s => Except.ok s
    | none => Except.error "list index out of range"

/-- `map_label_id`: `label_ids.get(name, 0)` where `label_ids` maps each
catalog name to `1 + idx`; a duplicate name keeps the last index, as a
Python dict comprehension would. -/
def mapLabelId (names : List String) (s : String) : Nat :=
  match names.reverse.findIdx? (fun n => n == s) with
  | none => 0
  | some j => names.length - j

/-- Modelled from the spec: the mask merge utility (out of scope of the
converter source) takes a sequence of raster masks and returns one merged
raster; with no masks the merged mask is empty/None. -/
def mergeMasks : List MaskImg → Option MaskImg
  | [] => none
  | m :: ms =>
    some (ms.foldl
      (fun acc n =>
        acc.zipWith (fun ra rn => ra.zipWith (fun a b => if b ≠ 0 then b else a) rn) n)
      m)

/-- Modelled from the spec: the image encode utility (out of scope of the
converter source) takes raw pixel data and returns encoded bytes; it is
represented as a marker prefix followed by the raw pixel values. -/
def encodeImage (img : MaskImg) : ByteStr :=
  137 :: 80 :: 78 :: 71 :: img.flatten

/-- Modelled from the spec: the fixed image extension appended to item
ids to form the filename feature. -/
def imageExt : String := ".jpg"

/-- Modelled from the spec: the image format name written when images
are saved. -/
def imageFormat : String := "jpg"

theorem length_dropWhile_le (p : α → Bool) (l : List α) :
    (l.dropWhile p).length ≤ l.length := by
  induction l with
  | nil => simp [List.dropWhile]
  | cons a l ih =>
    by_cases h : p a
    · simp only [List.dropWhile, h]
      exact Nat.le_succ_of_le ih
    · simp [List.dropWhile, h]

/-- `itertools.groupby(instance_anns, lambda a: a.group)`: split a list
into maximal runs of consecutive elements sharing the same group id,
each run tagged with its id. -/
def groupByKey : List Ann → List (Nat × List Ann)
  | [] => []
  | a :: rest =>
    match groupByKey rest with
    | [] => [(a.group, [a])]
    | (k, g) :: gs =>
      if a.group = k then (k, a :: g) :: gs
      else (a.group, [a]) :: (k, g) :: gs

/-- `groupByKey` peels off the maximal leading run of elements that share
the head's group id, then recurses on the remainder. -/
theorem groupByKey_cons (a : Ann) (rest : List Ann) :
    groupByKey (a :: rest) =
      (a.group, a :: rest.takeWhile (fun b => decide (b.group = a.group))) ::
        groupByKey (rest.dropWhile (fun b => decide (b.group = a.group))) := by
  induction rest generalizing a with
  | nil => rfl
  | cons b rest ih =>
    have hhead := ih b
    by_cases hb : b.group = a.group
    · rw [hb] at hhead
      rw [groupByKey, hhead]
      simp [List.takeWhile_cons, List.dropWhile_cons, hb]
    · have hb2 : ¬ (a.group = b.group) := fun h => hb h.symm
      rw [groupByKey, hhead]
      simp only [if_neg hb2]
      rw [← hhead]
      simp [List.takeWhile_cons, List.dropWhile_cons, hb]

/-- `_find_instance_anns`: keep only bbox- and mask-kind annotations. -/
def findInstanceAnns (anns : List Ann) : List Ann :=
  anns.filter (fun a => decide (a.type = AnnKind.bbox) || decide (a.type = AnnKind.mask))

/-- The body of the grouping loop of `_find_instances`: a run with a
falsy (0) group id is split into singleton groups, any other run is
kept whole. -/
def expandGroups (gs : List (Nat × List Ann)) : List (List Ann) :=
  gs.flatMap (fun kg => if kg.1 = 0 then kg.2.map (fun a => [a]) else [kg.2])

/-- `_find_instances`: filter to bbox/mask kinds, then group consecutive
annotations by group id, splitting falsy-id runs into singletons. -/
def findInstances (anns : List Ann) : List (List Ann) :=
  expandGroups (groupByKey (findInstanceAnns anns))

/-- The run keys produced by `groupByKey` (one per maximal run). -/
def runKeys (l : List Ann) : List Nat :=
  (groupByKey l).map Prod.fst

/-- `find_group_leader`: `max(group, key=lambda x: x.get_area())`.  Python's
`max` returns the first element attaining the maximal key; the empty list is
an error in Python (`ValueError`), rendered here as `none`. -/
def findGroupLeader : List Ann → Option Ann
  | [] => none
  | a :: rest =>
    match findGroupLeader rest with
    | none => some a
    | some b => if a.get_area < b.get_area then some b else some a

/-- The bbox-kind members of a group, in order
(`[a for a in group if a.type == AnnotationType.bbox]`). -/
def boxesOf (group : List Ann) : List Ann :=
  group.filter (fun a => decide (a.type = AnnKind.bbox))

/-- The mask-kind members of a group, in order
(`[a for a in group if a.type == AnnotationType.mask]`). -/
def masksOf (group : List Ann) : List Ann :=
  group.filter (fun a => decide (a.type = AnnKind.mask))

/-- A bounding box `(x, y, w, h)` in pixel coordinates. -/
structure BBox where
  x : ℚ
  y : ℚ
  w : ℚ
  h : ℚ
deriving DecidableEq, Repr

/-- Python `min(values, default=0)`: the minimum of a list, or 0 when
the list is empty. -/
def minD : List ℚ → ℚ
  | [] => 0
  | a :: l => l.foldl min a

/-- Python `max(values, default=0)`: the maximum of a list, or 0 when
the list is empty. -/
def maxD : List ℚ → ℚ
  | [] => 0
  | a :: l => l.foldl max a

/-- `_compute_bbox`: union bounding box of the given members' bounding
rectangles, each min/max defaulting to 0 over an empty collection. -/
def computeBbox (anns : List Ann) : BBox :=
  let boxes := anns.map Ann.get_bbox
  let x0 := minD (boxes.map (fun b => b.1))
  let y0 := minD (boxes.map (fun b => b.2.1))
  let x1 := maxD (boxes.map (fun b => b.1 + b.2.2.1))
  let y1 := maxD (boxes.map (fun b => b.2.1 + b.2.2.2))
  ⟨x0, y0, x1 - x0, y1 - y0⟩

/-- The `[leader, mask, bbox]` triple produced by `_find_instance_parts`. -/
structure InstanceParts where
  leader : Ann
  mask : Option MaskImg
  bbox : BBox
deriving DecidableEq, Repr

/-- `_find_instance_parts`: reorder the group as boxes-then-masks, pick
the leader by maximal area over that reordered list, compute the union
bounding box over it, and merge the masks when mask export is enabled. -/
def findInstanceParts (cfg : Config) (group : List Ann) :
    Except String InstanceParts :=
  let anns := boxesOf group ++ masksOf group
  match findGroupLeader anns with
  | none => Except.error "max() arg is an empty sequence"
  | some leader =>
    Except.ok
      { leader := leader
        mask :=
          if cfg.saveMasks then mergeMasks ((masksOf group).map Ann.image)
          else none
        bbox := computeBbox anns }

/-- Sequential effectful map over a list (a Python list comprehension or
loop in which each step may raise): stops at the first error. -/
def mapExcept (f : α → Except String β) : List α → Except String (List β)
  | [] => Except.ok []
  | x :: l =>
    match f x with
    | Except.error e => Except.error e
    | Except.ok y =>
      match mapExcept f l with
      | Except.error e => Except.error e
      | Except.ok ys => Except.ok (y :: ys)

/-- The parallel per-instance lists accumulated by `_export_instances`. -/
structure Exported where
  xmins : List ℚ
  xmaxs : List ℚ
  ymins : List ℚ
  ymaxs : List ℚ
  classesText : List ByteStr
  classes : List Nat
  masks : List ByteStr
deriving DecidableEq, Repr

/-- `_export_instances`: per instance, resolve the leader's label name,
store its printable-filtered UTF-8 encoding and its mapped label id,
normalize the instance bbox by the image width/height, and (when mask
export is enabled) store the encoded merged mask or an empty byte
string.  Label resolution may raise, and dividing by a zero image
dimension raises (Python `ZeroDivisionError`). -/
def exportInstances (cfg : Config) (names : List String) :
    List InstanceParts → ℚ → ℚ → Except String Exported
  | [], _, _ => Except.ok ⟨[], [], [], [], [], [], []⟩
  | p :: rest, wd, ht =>
    match getLabelName names p.leader.label with
    | Except.error e => Except.error e
    | Except.ok label =>
      if wd = 0 ∨ ht = 0 then Except.error "float division by zero"
      else
        match exportInstances cfg names rest wd ht with
        | Except.error e => Except.error e
        | Except.ok e =>
          Except.ok
            { xmins := p.bbox.x / wd :: e.xmins
              xmaxs := (p.bbox.x + p.bbox.w) / wd :: e.xmaxs
              ymins := p.bbox.y / ht :: e.ymins
              ymaxs := (p.bbox.y + p.bbox.h) / ht :: e.ymaxs
              classesText := utf8Bytes (makePrintable label) :: e.classesText
              classes := mapLabelId names label :: e.classes
              masks :=
                if cfg.saveMasks then
                  (match p.mask with
                    | some m => encodeImage m
                    | none => []) :: e.masks
                else e.masks }

/-- A feature value of the fixed external schema: an int64 list, a float
list, or a byte-string list (single values are stored as one-element
lists, as in the source's feature constructors). -/
inductive Feature
  | int64List (l : List Int)
  | floatList (l : List ℚ)
  | bytesList (l : List ByteStr)
deriving DecidableEq, Repr

/-- The instance-related portion of the feature mapping built by
`_export_instances`: emitted only when at least one instance exists, the
mask list only when it is non-empty. -/
def instanceFeatures (e : Exported) : List (String × Feature) :=
  if e.classes.isEmpty then []
  else
    [("image/object/bbox/xmin", Feature.floatList e.xmins),
     ("image/object/bbox/xmax", Feature.floatList e.xmaxs),
     ("image/object/bbox/ymin", Feature.floatList e.ymins),
     ("image/object/bbox/ymax", Feature.floatList e.ymaxs),
     ("image/object/class/text", Feature.bytesList e.classesText),
     ("image/object/class/label", Feature.int64List (e.classes.map Int.ofNat))] ++
    (if e.masks.isEmpty then []
     else [("image/object/mask", Feature.bytesList e.masks)])

/-- `_make_tf_example`: build the feature mapping for one dataset item.
An item with no image metadata is a fatal error naming the item id,
raised before any instance is processed. -/
def makeTfExample (cfg : Config) (names : List String) (item : Item) :
    Except String (List (String × Feature)) :=
  match item.image with
  | none =>
    Except.error
      ("Failed to export dataset item '" ++ item.id ++ "': item has no image info")
  | some img =>
    let height := img.size.1
    let width := img.size.2
    let encPair : ByteStr × ByteStr :=
      if cfg.saveImages && img.hasData then
        (encodeImage img.data, utf8Bytes imageFormat)
      else ([], [])
    match mapExcept (findInstanceParts cfg) (findInstances item.anns) with
    | Except.error e => Except.error e
    | Except.ok parts =>
      match exportInstances cfg names parts (width : ℚ) (height : ℚ) with
      | Except.error e => Except.error e
      | Except.ok e =>
        Except.ok
          ([("image/source_id", Feature.bytesList [utf8Bytes item.id]),
            ("image/filename", Feature.bytesList [utf8Bytes (item.id ++ imageExt)]),
            ("image/height", Feature.int64List [(height : Int)]),
            ("image/width", Feature.int64List [(width : Int)]),
            ("image/encoded", Feature.bytesList [encPair.1]),
            ("image/format", Feature.bytesList [encPair.2])] ++
           instanceFeatures e)

/-- The per-subset writer loop of `__call__`: convert items in order,
writing one record per item; the first error aborts the loop, keeping the
records already written and dropping everything after. -/
def processSubset (cfg : Config) (names : List String) :
    List Item → List (List (String × Feature)) × Option String
  | [] => ([], none)
  | item :: rest =>
    match makeTfExample cfg names item with
    | Except.error e => ([], some e)
    | Except.ok r =>
      let t := processSubset cfg names rest
      (r :: t.1, t.2)

theorem expandGroups_cons (k : Nat) (g : List Ann) (gs : List (Nat × List Ann)) :
    expandGroups ((k, g) :: gs) =
      (if k = 0 then g.map (fun a => [a]) else [g]) ++ expandGroups gs := by
  simp [expandGroups]

theorem mem_takeWhile_group {a x : Ann} {rest : List Ann}
    (hx : x ∈ rest.takeWhile (fun b => decide (b.group = a.group))) :
    x.group = a.group := by
  have := List.mem_takeWhile_imp hx
  simpa using this

/-- Every group produced by the grouping loop of `_find_instances` is
non-empty. -/
theorem expandGroups_ne_nil (l : List Ann) :
    ∀ grp ∈ expandGroups (groupByKey l), grp ≠ [] := by
  match l with
  | [] => intro grp h; simp [groupByKey, expandGroups] at h
  | a :: rest =>
    have ih := expandGroups_ne_nil (rest.dropWhile (fun b => decide (b.group = a.group)))
    intro grp h
    rw [groupByKey_cons, expandGroups_cons] at h
    rcases List.mem_append.1 h with h1 | h2
    · by_cases ha : a.group = 0
      · rw [if_pos ha] at h1
        rcases List.mem_map.1 h1 with ⟨y, _, rfl⟩
        simp
      · rw [if_neg ha] at h1
        rcases List.mem_singleton.1 h1 with rfl
        simp
    · exact ih grp h2
termination_by l.length
decreasing_by
  simp only [List.length_cons]
  exact Nat.lt_succ_of_le (length_dropWhile_le _ _)

/-- Members of the groups produced by the grouping loop all come from the
input list. -/
theorem mem_of_mem_expandGroups (l : List Ann) :
    ∀ grp ∈ expandGroups (groupByKey l), ∀ x ∈ grp, x ∈ l := by
  match l with
  | [] => intro grp h; simp [groupByKey, expandGroups] at h
  | a :: rest =>
    have ih := mem_of_mem_expandGroups (rest.dropWhile (fun b => decide (b.group = a.group)))
    intro grp h x hx
    rw [groupByKey_cons, expandGroups_cons] at h
    have hsplit := List.takeWhile_append_dropWhile
      (fun b => decide (b.group = a.group)) rest
    rcases List.mem_append.1 h with h1 | h2
    · have hgrp : x ∈ a :: rest.takeWhile (fun b => decide (b.group = a.group)) := by
        by_cases ha : a.group = 0
        · rw [if_pos ha] at h1
          rcases List.mem_map.1 h1 with ⟨y, hy, rfl⟩
          rcases List.mem_singleton.1 hx with rfl
          exact hy
        · rw [if_neg ha] at h1
          rcases List.mem_singleton.1 h1 with rfl
          exact hx
      rcases List.mem_cons.1 hgrp with rfl | htw
      · exact List.mem_cons_self _ _
      · exact List.mem_cons_of_mem _ (by
          rw [← hsplit]
          exact List.mem_append_left _ htw)
    · have hxl := ih grp h2 x hx
      exact List.mem_cons_of_mem _ ((List.dropWhile_sublist _).mem hxl)
termination_by l.length
decreasing_by
  simp only [List.length_cons]
  exact Nat.lt_succ_of_le (length_dropWhile_le _ _)

/-- A produced group containing an ungrouped (falsy group id) member is a
singleton holding exactly that member. -/
theorem expandGroups_zero_singleton (l : List Ann) :
    ∀ grp ∈ expandGroups (groupByKey l), ∀ a ∈ grp, a.group = 0 → grp = [a] := by
  match l with
  | [] => intro grp h; simp [groupByKey, expandGroups] at h
  | a :: rest =>
    have ih := expandGroups_zero_singleton (rest.dropWhile (fun b => decide (b.group = a.group)))
    intro grp h x hx hx0
    rw [groupByKey_cons, expandGroups_cons] at h
    rcases List.mem_append.1 h with h1 | h2
    · by_cases ha : a.group = 0
      · rw [if_pos ha] at h1
        rcases List.mem_map.1 h1 with ⟨y, _, rfl⟩
        rcases List.mem_singleton.1 hx with rfl
        rfl
      · rw [if_neg ha] at h1
        rcases List.mem_singleton.1 h1 with rfl
        rcases List.mem_cons.1 hx with rfl | htw
        · exact absurd hx0 ha
        · exact absurd (mem_takeWhile_group htw ▸ hx0) ha
    · exact ih grp h2 x hx hx0
termination_by l.length
decreasing_by
  simp only [List.length_cons]
  exact Nat.lt_succ_of_le (length_dropWhile_le _ _)

theorem filter_takeWhile_dropWhile (p : α → Bool) (l : List α) :
    l.filter p = l.takeWhile p ++ (l.dropWhile p).filter p := by
  conv_lhs => rw [← List.takeWhile_append_dropWhile p l]
  rw [List.filter_append,
    List.filter_eq_self.2 (fun a ha => List.mem_takeWhile_imp ha)]

/-- The produced groups made only of ungrouped (falsy group id) members are
exactly one singleton per ungrouped input member, in input order. -/
theorem expandGroups_filter_zero (l : List Ann) :
    (expandGroups (groupByKey l)).filter (fun grp => grp.all (fun b => decide (b.group = 0)))
      = (l.filter (fun b => decide (b.group = 0))).map (fun b => [b]) := by
  match l with
  | [] => rfl
  | a :: rest =>
    have ih := expandGroups_filter_zero (rest.dropWhile (fun b => decide (b.group = a.group)))
    have hsplit := List.takeWhile_append_dropWhile (fun b => decide (b.group = a.group)) rest
    rw [groupByKey_cons, expandGroups_cons, List.filter_append]
    by_cases ha : a.group = 0
    · rw [if_pos ha]
      have h1 : ((a :: rest.takeWhile (fun b => decide (b.group = a.group))).map
            (fun b => [b])).filter (fun grp => grp.all (fun b => decide (b.group = 0)))
          = (a :: rest.takeWhile (fun b => decide (b.group = a.group))).map (fun b => [b]) := by
        apply List.filter_eq_self.2
        intro grp hgrp
        rcases List.mem_map.1 hgrp with ⟨y, hy, rfl⟩
        rcases List.mem_cons.1 hy with rfl | hytw
        · simp [ha]
        · simp [mem_takeWhile_group hytw, ha]
      have h2 : (rest.takeWhile (fun b => decide (b.group = a.group))).filter
            (fun b => decide (b.group = 0))
          = rest.takeWhile (fun b => decide (b.group = a.group)) := by
        apply List.filter_eq_self.2
        intro y hy
        simp [mem_takeWhile_group hy, ha]
      conv_rhs => rw [← hsplit]
      rw [h1, ih]
      simp [List.filter_cons, ha, List.filter_append, h2]
      rw [← List.map_append]
      congr 1
      exact (filter_takeWhile_dropWhile (fun b => decide (b.group = 0)) rest).symm
    · rw [if_neg ha]
      have h1 : ([a :: rest.takeWhile (fun b => decide (b.group = a.group))]).filter
            (fun grp => grp.all (fun b => decide (b.group = 0))) = [] := by
        simp [ha]
      have h2 : (rest.takeWhile (fun b => decide (b.group = a.group))).filter
            (fun b => decide (b.group = 0)) = [] := by
        rw [List.filter_eq_nil_iff]
        intro y hy
        simp [mem_takeWhile_group hy, ha]
      conv_rhs => rw [← hsplit]
      rw [h1, ih]
      simp [List.filter_cons, ha, List.filter_append, h2]
      have hr : rest.filter (fun b => decide (b.group = 0))
          = (rest.dropWhile (fun b => decide (b.group = a.group))).filter
              (fun b => decide (b.group = 0)) := by
        conv_lhs => rw [← hsplit]
        rw [List.filter_append, h2, List.nil_append]
      rw [hr]
termination_by l.length
decreasing_by
  simp only [List.length_cons]
  exact Nat.lt_succ_of_le (length_dropWhile_le _ _)

/-- Every input member's group id is the key of some run. -/
theorem group_mem_runKeys (l : List Ann) :
    ∀ x ∈ l, x.group ∈ (groupByKey l).map Prod.fst := by
  match l with
  | [] => intro x hx; simp at hx
  | a :: rest =>
    have ih := group_mem_runKeys (rest.dropWhile (fun b => decide (b.group = a.group)))
    have hsplit := List.takeWhile_append_dropWhile (fun b => decide (b.group = a.group)) rest
    intro x hx
    rw [groupByKey_cons]
    simp only [List.map_cons]
    rcases List.mem_cons.1 hx with rfl | hxr
    · exact List.mem_cons_self _ _
    · rw [← hsplit] at hxr
      rcases List.mem_append.1 hxr with htw | hdw
      · rw [mem_takeWhile_group htw]
        exact List.mem_cons_self _ _
      · exact List.mem_cons_of_mem _ (ih x hdw)
termination_by l.length
decreasing_by
  simp only [List.length_cons]
  exact Nat.lt_succ_of_le (length_dropWhile_le _ _)

/-- When no input member carries group id `g`, no produced group mentions
`g`. -/
theorem expandGroups_filter_g_nil (l : List Ann) (g : Nat)
    (hnot : ∀ x ∈ l, x.group ≠ g) :
    (expandGroups (groupByKey l)).filter
      (fun grp => grp.any (fun b => decide (b.group = g))) = [] := by
  rw [List.filter_eq_nil_iff]
  intro grp hgrp hany
  rcases List.any_eq_true.1 hany with ⟨x, hx, hxg⟩
  exact hnot x (mem_of_mem_expandGroups l grp hgrp x hx) (by simpa using hxg)

/-- Under contiguity of the non-empty group ids (pairwise-distinct non-falsy
run keys; falsy-key runs may repeat freely), each non-empty group id present
in the input yields exactly one produced group, holding exactly the input
members with that id, in input order. -/
theorem expandGroups_filter_g (l : List Ann) (g : Nat) (hg : g ≠ 0)
    (hcont : (((groupByKey l).map Prod.fst).filter (fun k => decide (k ≠ 0))).Nodup)
    (hmem : g ∈ l.map Ann.group) :
    (expandGroups (groupByKey l)).filter
        (fun grp => grp.any (fun b => decide (b.group = g)))
      = [l.filter (fun b => decide (b.group = g))] := by
  match l with
  | [] => simp at hmem
  | a :: rest =>
    have hsplit := List.takeWhile_append_dropWhile (fun b => decide (b.group = a.group)) rest
    rw [groupByKey_cons] at hcont
    simp only [List.map_cons] at hcont
    have hcont2 : (((groupByKey (rest.dropWhile (fun b => decide (b.group = a.group)))).map
        Prod.fst).filter (fun k => decide (k ≠ 0))).Nodup := by
      by_cases ha0 : a.group = 0
      · rwa [List.filter_cons, if_neg (by simp [ha0])] at hcont
      · rw [List.filter_cons, if_pos (by simp [ha0])] at hcont
        exact (List.nodup_cons.1 hcont).2
    rw [groupByKey_cons, expandGroups_cons, List.filter_append]
    by_cases hag : a.group = g
    · have ha0 : ¬ (a.group = 0) := by rw [hag]; exact hg
      rw [if_neg ha0]
      have hanotin : a.group ∉ ((groupByKey (rest.dropWhile
          (fun b => decide (b.group = a.group)))).map Prod.fst).filter
          (fun k => decide (k ≠ 0)) := by
        rw [List.filter_cons, if_pos (by simp [ha0])] at hcont
        exact (List.nodup_cons.1 hcont).1
      have hdwnot : ∀ x ∈ rest.dropWhile (fun b => decide (b.group = a.group)),
          x.group ≠ g := by
        intro x hx hxg
        apply hanotin
        apply List.mem_filter.2
        refine ⟨?_, by simp [ha0]⟩
        have hmemk := group_mem_runKeys
          (rest.dropWhile (fun b => decide (b.group = a.group))) x hx
        rw [hxg] at hmemk
        rw [← hag] at hmemk
        exact hmemk
      rw [expandGroups_filter_g_nil _ g hdwnot]
      have h1 : ([a :: rest.takeWhile (fun b => decide (b.group = a.group))]).filter
            (fun grp => grp.any (fun b => decide (b.group = g)))
          = [a :: rest.takeWhile (fun b => decide (b.group = a.group))] := by
        simp [hag]
      rw [h1, List.append_nil]
      have htw : (rest.takeWhile (fun b => decide (b.group = a.group))).filter
            (fun b => decide (b.group = g))
          = rest.takeWhile (fun b => decide (b.group = a.group)) :=
        List.filter_eq_self.2 (fun x hx => by
          simp [mem_takeWhile_group hx, hag])
      have hdwf : (rest.dropWhile (fun b => decide (b.group = a.group))).filter
            (fun b => decide (b.group = g)) = [] := by
        rw [List.filter_eq_nil_iff]
        intro x hx
        simp [hdwnot x hx]
      have h3 : rest.filter (fun b => decide (b.group = g))
          = rest.takeWhile (fun b => decide (b.group = a.group)) := by
        conv_lhs => rw [← hsplit]
        rw [List.filter_append, htw, hdwf, List.append_nil]
      rw [List.filter_cons, h3, if_pos (by simp [hag])]
    · have h1 : (if a.group = 0
            then (a :: rest.takeWhile (fun b => decide (b.group = a.group))).map (fun b => [b])
            else [a :: rest.takeWhile (fun b => decide (b.group = a.group))]).filter
            (fun grp => grp.any (fun b => decide (b.group = g))) = [] := by
        rw [List.filter_eq_nil_iff]
        intro grp hgrp hany
        rcases List.any_eq_true.1 hany with ⟨x, hxg, hxval⟩
        have hxatw : x ∈ a :: rest.takeWhile (fun b => decide (b.group = a.group)) := by
          by_cases ha0 : a.group = 0
          · rw [if_pos ha0] at hgrp
            rcases List.mem_map.1 hgrp with ⟨y, hy, rfl⟩
            rcases List.mem_singleton.1 hxg with rfl
            exact hy
          · rw [if_neg ha0] at hgrp
            rcases List.mem_singleton.1 hgrp with rfl
            exact hxg
        have hxgrp : x.group = a.group := by
          rcases List.mem_cons.1 hxatw with rfl | htw
          · rfl
          · exact mem_takeWhile_group htw
        have hxg2 : x.group = g := by simpa using hxval
        exact hag (hxgrp.symm.trans hxg2)
      rw [h1, List.nil_append]
      have hmem2 : g ∈ (rest.dropWhile (fun b => decide (b.group = a.group))).map Ann.group := by
        rcases List.mem_map.1 hmem with ⟨x, hx, hxg⟩
        rcases List.mem_cons.1 hx with rfl | hxr
        · exact absurd hxg hag
        · rw [← hsplit] at hxr
          rcases List.mem_append.1 hxr with htw | hdw
          · exact absurd ((mem_takeWhile_group htw).symm.trans hxg) hag
          · exact List.mem_map.2 ⟨x, hdw, hxg⟩
      have ih := expandGroups_filter_g (rest.dropWhile (fun b => decide (b.group = a.group)))
        g hg hcont2 hmem2
      rw [ih]
      have htwf : (rest.takeWhile (fun b => decide (b.group = a.group))).filter
            (fun b => decide (b.group = g)) = [] := by
        rw [List.filter_eq_nil_iff]
        intro x hx
        simp [mem_takeWhile_group hx, hag]
      have hfl : (a :: rest).filter (fun b => decide (b.group = g))
          = (rest.dropWhile (fun b => decide (b.group = a.group))).filter
              (fun b => decide (b.group = g)) := by
        rw [List.filter_cons, if_neg (by simp [hag])]
        conv_lhs => rw [← hsplit]
        rw [List.filter_append, htwf, List.nil_append]
      rw [hfl]
termination_by l.length
decreasing_by
  simp only [List.length_cons]
  exact Nat.lt_succ_of_le (length_dropWhile_le _ _)

/-- The non-falsy head group ids of the produced groups are exactly the
non-falsy run keys, in run order. -/
theorem expandGroups_headGroups (l : List Ann) :
    ((expandGroups (groupByKey l)).map
        (fun grp => (grp.head?.map Ann.group).getD 0)).filter (fun k => decide (k ≠ 0))
      = ((groupByKey l).map Prod.fst).filter (fun k => decide (k ≠ 0)) := by
  match l with
  | [] => rfl
  | a :: rest =>
    have ih := expandGroups_headGroups (rest.dropWhile (fun b => decide (b.group = a.group)))
    rw [groupByKey_cons, expandGroups_cons]
    simp only [List.map_cons, List.map_append]
    rw [List.filter_append, ih]
    by_cases ha : a.group = 0
    · rw [if_pos ha]
      have h1 : (([a] :: (rest.takeWhile (fun b => decide (b.group = a.group))).map
            (fun b => [b])).map (fun grp => (grp.head?.map Ann.group).getD 0)).filter
            (fun k => decide (k ≠ 0)) = [] := by
        rw [List.filter_eq_nil_iff]
        intro k hk
        rcases List.mem_map.1 hk with ⟨grp, hgrp, rfl⟩
        rcases List.mem_cons.1 hgrp with rfl | hgt
        · simp [ha]
        · rcases List.mem_map.1 hgt with ⟨y, hy, rfl⟩
          simp [mem_takeWhile_group hy, ha]
      rw [h1, List.nil_append]
      simp [List.filter_cons, ha]
    · rw [if_neg ha]
      simp [List.filter_cons, ha]
termination_by l.length
decreasing_by
  simp only [List.length_cons]
  exact Nat.lt_succ_of_le (length_dropWhile_le _ _)

/-- Example input (C1 counterexample): bbox annotation in group 1. -/
def cxA1 : Ann :=
  { type := AnnKind.bbox, x := 0, y := 0, w := 2, h := 2, area := 4, group := 1 }

/-- Example input (C1 counterexample): bbox annotation in group 2. -/
def cxA2 : Ann :=
  { type := AnnKind.bbox, x := 1, y := 0, w := 1, h := 1, area := 1, group := 2 }

/-- Example input (C1 counterexample): bbox annotation in group 1 again,
separated from the first by the group-2 annotation. -/
def cxA3 : Ann :=
  { type := AnnKind.bbox, x := 3, y := 3, w := 1, h := 1, area := 1, group := 1 }

/-- Claim C1 fails as stated: in the input `[cxA1, cxA2, cxA3]` the two
group-1 annotations are not contiguous, and the grouper produces three
groups, two of which hold group-1 annotations — not exactly one group for
group id 1. -/
theorem C1_counterexample :
    cxA1.group = 1 ∧ cxA2.group = 2 ∧ cxA3.group = 1 ∧
    cxA1.type = AnnKind.bbox ∧ cxA2.type = AnnKind.bbox ∧ cxA3.type = AnnKind.bbox ∧
    (findInstances [cxA1, cxA2, cxA3]).length = 3 ∧
    (findInstances [cxA1, cxA2, cxA3]).countP
      (fun grp => grp.any (fun b => decide (b.group = 1))) = 2 := by
  decide

/-- Claim C1 (amended): when the bbox/mask-kind annotations sharing each
non-empty group id are contiguous (the non-falsy run keys are pairwise
distinct; ungrouped annotations may occur anywhere, in any number of runs),
the grouper produces exactly one group per distinct non-empty group id
present, that group holding exactly the annotations with that id in input
order; and the non-empty group ids of the produced groups appear in run
(first-occurrence) order. -/
theorem C1_one_group_per_id (anns : List Ann) (g : Nat)
    (hcont : ((runKeys (findInstanceAnns anns)).filter
      (fun k => decide (k ≠ 0))).Nodup) (hg : g ≠ 0)
    (hmem : g ∈ (findInstanceAnns anns).map Ann.group) :
    (findInstances anns).filter (fun grp => grp.any (fun b => decide (b.group = g)))
        = [(findInstanceAnns anns).filter (fun b => decide (b.group = g))]
      ∧ ((findInstances anns).map
            (fun grp => (grp.head?.map Ann.group).getD 0)).filter (fun k => decide (k ≠ 0))
        = (runKeys (findInstanceAnns anns)).filter (fun k => decide (k ≠ 0)) :=
  ⟨expandGroups_filter_g _ g hg hcont hmem, expandGroups_headGroups _⟩

/-- Example input (C1 witness): bbox annotation in group 1. -/
def w1A : Ann :=
  { type := AnnKind.bbox, x := 0, y := 0, w := 2, h := 3, area := 6, group := 1 }

/-- Example input (C1 witness): mask annotation in group 1, contiguous with
the other group-1 member. -/
def w1B : Ann :=
  { type := AnnKind.mask, x := 1, y := 1, w := 2, h := 2, area := 3, group := 1,
    image := [[0, 1], [1, 1]] }

/-- Example input (C1 witness): ungrouped bbox annotation. -/
def w1C : Ann :=
  { type := AnnKind.bbox, x := 4, y := 4, w := 1, h := 1, area := 1, group := 0 }

/-- Example input (C1 witness): an ungrouped mask annotation placed before
the group-1 run, so with `w1C` the falsy key occurs in two separate runs. -/
def w1D : Ann :=
  { type := AnnKind.mask, x := 2, y := 2, w := 1, h := 1, area := 1, group := 0,
    image := [[1]] }

/-- Witness for C1 at the input `[w1D, w1A, w1B, w1C]`: group id 1 is
contiguous while ungrouped annotations occur both before and after it. -/
theorem C1_one_group_per_id_witness :
    (findInstances [w1D, w1A, w1B, w1C]).filter
        (fun grp => grp.any (fun b => decide (b.group = 1)))
        = [(findInstanceAnns [w1D, w1A, w1B, w1C]).filter (fun b => decide (b.group = 1))]
      ∧ ((findInstances [w1D, w1A, w1B, w1C]).map
            (fun grp => (grp.head?.map Ann.group).getD 0)).filter (fun k => decide (k ≠ 0))
        = (runKeys (findInstanceAnns [w1D, w1A, w1B, w1C])).filter (fun k => decide (k ≠ 0)) :=
  C1_one_group_per_id [w1D, w1A, w1B, w1C] 1 (by decide) (by decide) (by decide)

/-- Claim C4: the produced groups made only of ungrouped (falsy group id)
bbox/mask-kind annotations are exactly one singleton per such annotation,
in input order; and any produced group containing an ungrouped annotation
is that annotation's own singleton — two ungrouped annotations are never
merged into one instance. -/
theorem C4_ungrouped_singletons (anns : List Ann) :
    (findInstances anns).filter (fun grp => grp.all (fun b => decide (b.group = 0)))
        = ((findInstanceAnns anns).filter (fun b => decide (b.group = 0))).map
            (fun b => [b])
      ∧ ∀ grp ∈ findInstances anns, ∀ b ∈ grp, b.group = 0 → grp = [b] :=
  ⟨expandGroups_filter_zero _, fun grp hgrp => expandGroups_zero_singleton _ grp hgrp⟩

/-- Default configuration: no image saving, no mask saving. -/
def cfg0 : Config := {}

/-- `find_group_leader` of a non-empty list yields a value. -/
theorem findGroupLeader_eq_none_iff (l : List Ann) :
    findGroupLeader l = none ↔ l = [] := by
  cases l with
  | nil => simp [findGroupLeader]
  | cons a rest =>
    rw [findGroupLeader]
    cases findGroupLeader rest with
    | none => simp
    | some b =>
      by_cases hab : a.get_area < b.get_area
      · simp [if_pos hab]
      · simp [if_neg hab]

/-- `find_group_leader` returns the first element attaining the maximal
area: a member whose area no member exceeds, with every earlier member of
strictly smaller area (Python `max` keeps the first maximal element). -/
theorem findGroupLeader_spec (l : List Ann) (m : Ann)
    (h : findGroupLeader l = some m) :
    m ∈ l ∧ (∀ b ∈ l, b.get_area ≤ m.get_area) ∧
      ∃ l1 l2, l = l1 ++ m :: l2 ∧ ∀ b ∈ l1, b.get_area < m.get_area := by
  induction l generalizing m with
  | nil => simp [findGroupLeader] at h
  | cons a rest ih =>
    rw [findGroupLeader] at h
    cases hr : findGroupLeader rest with
    | none =>
      rw [hr] at h
      have h2 : some a = some m := h
      have hrest : rest = [] := (findGroupLeader_eq_none_iff rest).1 hr
      rcases Option.some_injective _ h2 with rfl
      subst hrest
      refine ⟨List.mem_cons_self _ _, ?_, [], [], rfl, by simp⟩
      intro b hb
      rcases List.mem_singleton.1 hb with rfl
      exact le_refl _
    | some b =>
      rw [hr] at h
      have h2 : (if a.get_area < b.get_area then some b else some a) = some m := h
      rcases ih b hr with ⟨hbmem, hbmax, l1, l2, hdec, hl1⟩
      by_cases hab : a.get_area < b.get_area
      · rw [if_pos hab] at h2
        rcases Option.some_injective _ h2 with rfl
        refine ⟨List.mem_cons_of_mem _ hbmem, ?_, a :: l1, l2, by simp [hdec], ?_⟩
        · intro c hc
          rcases List.mem_cons.1 hc with rfl | hcr
          · exact le_of_lt hab
          · exact hbmax c hcr
        · intro c hc
          rcases List.mem_cons.1 hc with rfl | hcl
          · exact hab
          · exact hl1 c hcl
      · rw [if_neg hab] at h2
        rcases Option.some_injective _ h2 with rfl
        refine ⟨List.mem_cons_self _ _, ?_, [], rest, rfl, by simp⟩
        intro c hc
        rcases List.mem_cons.1 hc with rfl | hcr
        · exact le_refl _
        · exact le_trans (hbmax c hcr) (not_lt.1 hab)

theorem foldl_min_le_init (rest : List ℚ) (init : ℚ) :
    rest.foldl min init ≤ init := by
  induction rest generalizing init with
  | nil => simp
  | cons b t ih =>
    simp only [List.foldl_cons]
    exact le_trans (ih (min init b)) (min_le_left _ _)

theorem foldl_min_le_mem (rest : List ℚ) (init : ℚ) :
    ∀ x ∈ rest, rest.foldl min init ≤ x := by
  induction rest generalizing init with
  | nil => simp
  | cons b t ih =>
    intro x hx
    simp only [List.foldl_cons]
    rcases List.mem_cons.1 hx with rfl | hxt
    · exact le_trans (foldl_min_le_init t (min init x)) (min_le_right _ _)
    · exact ih (min init b) x hxt

theorem foldl_min_mem (rest : List ℚ) (init : ℚ) :
    rest.foldl min init = init ∨ rest.foldl min init ∈ rest := by
  induction rest generalizing init with
  | nil => exact Or.inl rfl
  | cons b t ih =>
    simp only [List.foldl_cons]
    rcases ih (min init b) with h | h
    · rcases min_choice init b with hc | hc
      · exact Or.inl (h.trans hc)
      · exact Or.inr (List.mem_cons.2 (Or.inl (h.trans hc)))
    · exact Or.inr (List.mem_cons.2 (Or.inr h))

theorem foldl_max_init_le (rest : List ℚ) (init : ℚ) :
    init ≤ rest.foldl max init := by
  induction rest generalizing init with
  | nil => simp
  | cons b t ih =>
    simp only [List.foldl_cons]
    exact le_trans (le_max_left _ _) (ih (max init b))

theorem foldl_max_mem_le (rest : List ℚ) (init : ℚ) :
    ∀ x ∈ rest, x ≤ rest.foldl max init := by
  induction rest generalizing init with
  | nil => simp
  | cons b t ih =>
    intro x hx
    simp only [List.foldl_cons]
    rcases List.mem_cons.1 hx with rfl | hxt
    · exact le_trans (le_max_right _ _) (foldl_max_init_le t (max init x))
    · exact ih (max init b) x hxt

theorem foldl_max_mem (rest : List ℚ) (init : ℚ) :
    rest.foldl max init = init ∨ rest.foldl max init ∈ rest := by
  induction rest generalizing init with
  | nil => exact Or.inl rfl
  | cons b t ih =>
    simp only [List.foldl_cons]
    rcases ih (max init b) with h | h
    · rcases max_choice init b with hc | hc
      · exact Or.inl (h.trans hc)
      · exact Or.inr (List.mem_cons.2 (Or.inl (h.trans hc)))
    · exact Or.inr (List.mem_cons.2 (Or.inr h))

/-- `minD` bounds every member from below. -/
theorem minD_le (l : List ℚ) (x : ℚ) (hx : x ∈ l) : minD l ≤ x := by
  cases l with
  | nil => simp at hx
  | cons a rest =>
    rcases List.mem_cons.1 hx with rfl | hxr
    · exact foldl_min_le_init rest x
    · exact foldl_min_le_mem rest a x hxr

/-- `minD` of a non-empty list is attained by a member. -/
theorem minD_mem (l : List ℚ) (hl : l ≠ []) : minD l ∈ l := by
  cases l with
  | nil => exact absurd rfl hl
  | cons a rest =>
    rcases foldl_min_mem rest a with h | h
    · exact List.mem_cons.2 (Or.inl h)
    · exact List.mem_cons.2 (Or.inr h)

/-- `maxD` bounds every member from above. -/
theorem le_maxD (l : List ℚ) (x : ℚ) (hx : x ∈ l) : x ≤ maxD l := by
  cases l with
  | nil => simp at hx
  | cons a rest =>
    rcases List.mem_cons.1 hx with rfl | hxr
    · exact foldl_max_init_le rest x
    · exact foldl_max_mem_le rest a x hxr

/-- `maxD` of a non-empty list is attained by a member. -/
theorem maxD_mem (l : List ℚ) (hl : l ≠ []) : maxD l ∈ l := by
  cases l with
  | nil => exact absurd rfl hl
  | cons a rest =>
    rcases foldl_max_mem rest a with h | h
    · exact List.mem_cons.2 (Or.inl h)
    · exact List.mem_cons.2 (Or.inr h)

/-- Splitting a successful `_find_instance_parts` result: the leader is the
`find_group_leader` of the boxes-then-masks reordering, the bbox the union
bbox over that same list, the mask the merge result when enabled. -/
theorem findInstanceParts_ok (cfg : Config) (group : List Ann) (parts : InstanceParts)
    (h : findInstanceParts cfg group = Except.ok parts) :
    findGroupLeader (boxesOf group ++ masksOf group) = some parts.leader ∧
    parts.bbox = computeBbox (boxesOf group ++ masksOf group) ∧
    parts.mask = (if cfg.saveMasks then mergeMasks ((masksOf group).map Ann.image)
      else none) := by
  simp only [findInstanceParts] at h
  cases hl : findGroupLeader (boxesOf group ++ masksOf group) with
  | none =>
    rw [hl] at h
    have h2 : (Except.error "max() arg is an empty sequence"
        : Except String InstanceParts) = Except.ok parts := h
    cases h2
  | some m =>
    rw [hl] at h
    have h2 : Except.ok
        ({ leader := m
           mask := if cfg.saveMasks then mergeMasks ((masksOf group).map Ann.image)
             else none
           bbox := computeBbox (boxesOf group ++ masksOf group) } : InstanceParts)
        = Except.ok parts := h
    injection h2 with h3
    subst h3
    exact ⟨rfl, rfl, rfl⟩

/-- The union bbox of a non-empty member list: left/top edges are member
minima, right/bottom extents member maxima, each bound attained. -/
theorem computeBbox_spec (anns : List Ann) (hne : anns ≠ []) :
    (∀ b ∈ anns,
        (computeBbox anns).x ≤ b.x ∧ (computeBbox anns).y ≤ b.y ∧
        b.x + b.w ≤ (computeBbox anns).x + (computeBbox anns).w ∧
        b.y + b.h ≤ (computeBbox anns).y + (computeBbox anns).h) ∧
    (∃ b ∈ anns, b.x = (computeBbox anns).x) ∧
    (∃ b ∈ anns, b.y = (computeBbox anns).y) ∧
    (∃ b ∈ anns, b.x + b.w = (computeBbox anns).x + (computeBbox anns).w) ∧
    (∃ b ∈ anns, b.y + b.h = (computeBbox anns).y + (computeBbox anns).h) := by
  have hc : computeBbox anns =
      ⟨minD (anns.map (fun b => b.x)), minD (anns.map (fun b => b.y)),
        maxD (anns.map (fun b => b.x + b.w)) - minD (anns.map (fun b => b.x)),
        maxD (anns.map (fun b => b.y + b.h)) - minD (anns.map (fun b => b.y))⟩ := by
    simp only [computeBbox, List.map_map]
    rfl
  have hxw : minD (anns.map (fun b => b.x)) +
      (maxD (anns.map (fun b => b.x + b.w)) - minD (anns.map (fun b => b.x)))
      = maxD (anns.map (fun b => b.x + b.w)) := by ring
  have hyh : minD (anns.map (fun b => b.y)) +
      (maxD (anns.map (fun b => b.y + b.h)) - minD (anns.map (fun b => b.y)))
      = maxD (anns.map (fun b => b.y + b.h)) := by ring
  rw [hc]
  refine ⟨?_, ?_, ?_, ?_, ?_⟩
  · intro b hb
    refine ⟨minD_le _ _ (List.mem_map_of_mem _ hb),
      minD_le _ _ (List.mem_map_of_mem _ hb), ?_, ?_⟩
    · show b.x + b.w ≤ minD (anns.map (fun b => b.x)) +
        (maxD (anns.map (fun b => b.x + b.w)) - minD (anns.map (fun b => b.x)))
      rw [hxw]
      exact le_maxD _ _ (List.mem_map_of_mem _ hb)
    · show b.y + b.h ≤ minD (anns.map (fun b => b.y)) +
        (maxD (anns.map (fun b => b.y + b.h)) - minD (anns.map (fun b => b.y)))
      rw [hyh]
      exact le_maxD _ _ (List.mem_map_of_mem _ hb)
  · have hmne : anns.map (fun b => b.x) ≠ [] := by simp [hne]
    rcases List.mem_map.1 (minD_mem _ hmne) with ⟨b, hb, hbv⟩
    exact ⟨b, hb, hbv⟩
  · have hmne : anns.map (fun b => b.y) ≠ [] := by simp [hne]
    rcases List.mem_map.1 (minD_mem _ hmne) with ⟨b, hb, hbv⟩
    exact ⟨b, hb, hbv⟩
  · have hmne : anns.map (fun b => b.x + b.w) ≠ [] := by simp [hne]
    rcases List.mem_map.1 (maxD_mem _ hmne) with ⟨b, hb, hbv⟩
    refine ⟨b, hb, ?_⟩
    show b.x + b.w = minD (anns.map (fun b => b.x)) +
      (maxD (anns.map (fun b => b.x + b.w)) - minD (anns.map (fun b => b.x)))
    rw [hxw]
    exact hbv
  · have hmne : anns.map (fun b => b.y + b.h) ≠ [] := by simp [hne]
    rcases List.mem_map.1 (maxD_mem _ hmne) with ⟨b, hb, hbv⟩
    refine ⟨b, hb, ?_⟩
    show b.y + b.h = minD (anns.map (fun b => b.y)) +
      (maxD (anns.map (fun b => b.y + b.h)) - minD (anns.map (fun b => b.y)))
    rw [hyh]
    exact hbv

/-- The union bbox of an empty collection is all zeros (the min/max
defaults). -/
theorem computeBbox_nil : computeBbox [] = ⟨0, 0, 0, 0⟩ := by
  simp [computeBbox, minD, maxD]

/-- Claim C2 (amended): the instance leader is a maximal-area member of the
group, with ties broken by first occurrence in the reordered
boxes-then-masks sequence (bbox-kind members first, then mask-kind members,
each kind keeping its original relative order) — not in the group's
original annotation order. -/
theorem C2_leader_stable_max (cfg : Config) (group : List Ann) (parts : InstanceParts)
    (h : findInstanceParts cfg group = Except.ok parts) :
    parts.leader ∈ boxesOf group ++ masksOf group ∧
    (∀ b ∈ boxesOf group ++ masksOf group, b.get_area ≤ parts.leader.get_area) ∧
    ∃ l1 l2, boxesOf group ++ masksOf group = l1 ++ parts.leader :: l2 ∧
      ∀ b ∈ l1, b.get_area < parts.leader.get_area := by
  obtain ⟨hl, -, -⟩ := findInstanceParts_ok cfg group parts h
  exact findGroupLeader_spec _ _ hl

/-- Example input (C2): a mask annotation placed first in its group. -/
def cxM2 : Ann :=
  { type := AnnKind.mask, x := 0, y := 0, w := 2, h := 2, area := 4, group := 5,
    image := [[1, 1], [1, 1]] }

/-- Example input (C2): a bbox annotation placed second in its group, tying
the mask's area. -/
def cxB2 : Ann :=
  { type := AnnKind.bbox, x := 1, y := 1, w := 2, h := 2, area := 4, group := 5 }

/-- Claim C2 fails as stated: in the group `[cxM2, cxB2]` the mask comes
first and ties the bbox for maximal area, so a stable max over the group's
original order (what `find_group_leader` itself would return on that
order) picks the mask — but the instance leader is the bbox, because
`_find_instance_parts` reorders the group boxes-first before the max. -/
theorem C2_counterexample :
    cxM2.get_area = cxB2.get_area ∧ cxM2 ≠ cxB2 ∧
    findGroupLeader [cxM2, cxB2] = some cxM2 ∧
    findInstanceParts cfg0 [cxM2, cxB2]
      = Except.ok { leader := cxB2, mask := none, bbox := ⟨0, 0, 3, 3⟩ } :=
  ⟨rfl, by decide, by decide, by
    simp [findInstanceParts, findGroupLeader, computeBbox, minD, maxD, boxesOf, masksOf,
      cfg0, cxM2, cxB2, Ann.get_area, Ann.get_bbox] <;> norm_num⟩

/-- Witness for C2 at the group `[w1A, w1B]` (bbox of area 6, mask of
area 3): the leader is `w1A`. -/
theorem C2_leader_stable_max_witness :
    w1A ∈ boxesOf [w1A, w1B] ++ masksOf [w1A, w1B] ∧
    (∀ b ∈ boxesOf [w1A, w1B] ++ masksOf [w1A, w1B], b.get_area ≤ w1A.get_area) ∧
    ∃ l1 l2, boxesOf [w1A, w1B] ++ masksOf [w1A, w1B] = l1 ++ w1A :: l2 ∧
      ∀ b ∈ l1, b.get_area < w1A.get_area :=
  C2_leader_stable_max cfg0 [w1A, w1B]
    { leader := w1A, mask := none, bbox := ⟨0, 0, 3, 3⟩ } (by
      simp [findInstanceParts, findGroupLeader, computeBbox, minD, maxD, boxesOf, masksOf,
        cfg0, w1A, w1B, Ann.get_area, Ann.get_bbox] <;> norm_num)

/-- Claim C3 (amended): the (0, 0, 0, 0) min/max defaults arise exactly for
an empty member collection; a group with no bbox-kind members but some
mask-kind members instead gets the union of the masks' own bounding
rectangles, since masks contribute their bounding rectangles too. -/
theorem C3_bbox_defaults (cfg : Config) (group : List Ann) (parts : InstanceParts)
    (h : findInstanceParts cfg group = Except.ok parts) :
    computeBbox [] = ⟨0, 0, 0, 0⟩ ∧
    parts.bbox = computeBbox (boxesOf group ++ masksOf group) ∧
    (boxesOf group = [] → parts.bbox = computeBbox (masksOf group)) := by
  obtain ⟨-, hbb, -⟩ := findInstanceParts_ok cfg group parts h
  refine ⟨computeBbox_nil, hbb, fun hb => ?_⟩
  rw [hbb, hb, List.nil_append]

/-- Example input (C3): a lone mask annotation with bounding rectangle
(2, 3, 4, 5). -/
def cxM3 : Ann :=
  { type := AnnKind.mask, x := 2, y := 3, w := 4, h := 5, area := 7, group := 0,
    image := [[1]] }

/-- Claim C3 fails as stated: the group `[cxM3]` contains no bbox-kind
member, yet its instance bbox is the mask's bounding rectangle
(2, 3, 4, 5), not the (0, 0, 0, 0) defaults. -/
theorem C3_counterexample :
    boxesOf [cxM3] = [] ∧ masksOf [cxM3] = [cxM3] ∧
    findInstanceParts cfg0 [cxM3]
      = Except.ok { leader := cxM3, mask := none, bbox := ⟨2, 3, 4, 5⟩ } ∧
    (⟨2, 3, 4, 5⟩ : BBox) ≠ ⟨0, 0, 0, 0⟩ :=
  ⟨rfl, rfl, by
    simp [findInstanceParts, findGroupLeader, computeBbox, minD, maxD, boxesOf, masksOf,
      cfg0, cxM3, Ann.get_area, Ann.get_bbox] <;> norm_num, by decide⟩

/-- Witness for C3 at the mask-only group `[cxM3]`. -/
theorem C3_bbox_defaults_witness :
    computeBbox [] = ⟨0, 0, 0, 0⟩ ∧
    (⟨2, 3, 4, 5⟩ : BBox) = computeBbox (boxesOf [cxM3] ++ masksOf [cxM3]) ∧
    (boxesOf [cxM3] = [] → (⟨2, 3, 4, 5⟩ : BBox) = computeBbox (masksOf [cxM3])) :=
  C3_bbox_defaults cfg0 [cxM3]
    { leader := cxM3, mask := none, bbox := ⟨2, 3, 4, 5⟩ } (by
      simp [findInstanceParts, findGroupLeader, computeBbox, minD, maxD, boxesOf, masksOf,
        cfg0, cxM3, Ann.get_area, Ann.get_bbox] <;> norm_num)

/-- Claim C9: the instance bbox is the union bounding box over all group
members — both bbox-kind and mask-kind, each contributing its own bounding
rectangle: its left/top edges are the member minima, its right/bottom
extents the member maxima (each attained by some member), and each min/max
defaults to 0 over an empty collection. -/
theorem C9_union_bbox (cfg : Config) (group : List Ann) (parts : InstanceParts)
    (h : findInstanceParts cfg group = Except.ok parts) :
    computeBbox [] = ⟨0, 0, 0, 0⟩ ∧
    ((∀ b ∈ boxesOf group ++ masksOf group,
        parts.bbox.x ≤ b.x ∧ parts.bbox.y ≤ b.y ∧
        b.x + b.w ≤ parts.bbox.x + parts.bbox.w ∧
        b.y + b.h ≤ parts.bbox.y + parts.bbox.h) ∧
      (∃ b ∈ boxesOf group ++ masksOf group, b.x = parts.bbox.x) ∧
      (∃ b ∈ boxesOf group ++ masksOf group, b.y = parts.bbox.y) ∧
      (∃ b ∈ boxesOf group ++ masksOf group,
        b.x + b.w = parts.bbox.x + parts.bbox.w) ∧
      (∃ b ∈ boxesOf group ++ masksOf group,
        b.y + b.h = parts.bbox.y + parts.bbox.h)) := by
  obtain ⟨hl, hbb, -⟩ := findInstanceParts_ok cfg group parts h
  have hne : boxesOf group ++ masksOf group ≠ [] := by
    intro hnil
    rw [hnil] at hl
    simp [findGroupLeader] at hl
  rw [hbb]
  exact ⟨computeBbox_nil, computeBbox_spec _ hne⟩

/-- Witness for C9 at the group `[w1A, w1B]` with union bbox (0, 0, 3, 3). -/
theorem C9_union_bbox_witness :
    computeBbox [] = ⟨0, 0, 0, 0⟩ ∧
    ((∀ b ∈ boxesOf [w1A, w1B] ++ masksOf [w1A, w1B],
        (⟨0, 0, 3, 3⟩ : BBox).x ≤ b.x ∧ (⟨0, 0, 3, 3⟩ : BBox).y ≤ b.y ∧
        b.x + b.w ≤ (⟨0, 0, 3, 3⟩ : BBox).x + (⟨0, 0, 3, 3⟩ : BBox).w ∧
        b.y + b.h ≤ (⟨0, 0, 3, 3⟩ : BBox).y + (⟨0, 0, 3, 3⟩ : BBox).h) ∧
      (∃ b ∈ boxesOf [w1A, w1B] ++ masksOf [w1A, w1B], b.x = (⟨0, 0, 3, 3⟩ : BBox).x) ∧
      (∃ b ∈ boxesOf [w1A, w1B] ++ masksOf [w1A, w1B], b.y = (⟨0, 0, 3, 3⟩ : BBox).y) ∧
      (∃ b ∈ boxesOf [w1A, w1B] ++ masksOf [w1A, w1B],
        b.x + b.w = (⟨0, 0, 3, 3⟩ : BBox).x + (⟨0, 0, 3, 3⟩ : BBox).w) ∧
      (∃ b ∈ boxesOf [w1A, w1B] ++ masksOf [w1A, w1B],
        b.y + b.h = (⟨0, 0, 3, 3⟩ : BBox).y + (⟨0, 0, 3, 3⟩ : BBox).h)) :=
  C9_union_bbox cfg0 [w1A, w1B]
    { leader := w1A, mask := none, bbox := ⟨0, 0, 3, 3⟩ } (by
      simp [findInstanceParts, findGroupLeader, computeBbox, minD, maxD, boxesOf, masksOf,
        cfg0, w1A, w1B, Ann.get_area, Ann.get_bbox] <;> norm_num)

theorem mapExcept_ok_length (f : α → Except String β) (l : List α) (ys : List β)
    (h : mapExcept f l = Except.ok ys) : ys.length = l.length := by
  induction l generalizing ys with
  | nil =>
    have h2 : (Except.ok [] : Except String (List β)) = Except.ok ys := h
    injection h2 with h3
    subst h3
    rfl
  | cons x rest ih =>
    rw [mapExcept] at h
    cases hx : f x with
    | error err =>
      rw [hx] at h
      have h2 : (Except.error err : Except String (List β)) = Except.ok ys := h
      cases h2
    | ok y =>
      rw [hx] at h
      cases hr : mapExcept f rest with
      | error err =>
        rw [hr] at h
        have h2 : (Except.error err : Except String (List β)) = Except.ok ys := h
        cases h2
      | ok ys' =>
        rw [hr] at h
        have h2 : (Except.ok (y :: ys') : Except String (List β)) = Except.ok ys := h
        injection h2 with h3
        subst h3
        simp [ih ys' hr]

theorem mapExcept_ok_mem (f : α → Except String β) (l : List α) (ys : List β)
    (h : mapExcept f l = Except.ok ys) : ∀ y ∈ ys, ∃ x ∈ l, f x = Except.ok y := by
  induction l generalizing ys with
  | nil =>
    have h2 : (Except.ok [] : Except String (List β)) = Except.ok ys := h
    injection h2 with h3
    subst h3
    intro y hy
    simp at hy
  | cons x rest ih =>
    rw [mapExcept] at h
    cases hx : f x with
    | error err =>
      rw [hx] at h
      have h2 : (Except.error err : Except String (List β)) = Except.ok ys := h
      cases h2
    | ok y0 =>
      rw [hx] at h
      cases hr : mapExcept f rest with
      | error err =>
        rw [hr] at h
        have h2 : (Except.error err : Except String (List β)) = Except.ok ys := h
        cases h2
      | ok ys' =>
        rw [hr] at h
        have h2 : (Except.ok (y0 :: ys') : Except String (List β)) = Except.ok ys := h
        injection h2 with h3
        subst h3
        intro y hy
        rcases List.mem_cons.1 hy with rfl | hy'
        · exact ⟨x, List.mem_cons_self _ _, hx⟩
        · rcases ih ys' hr y hy' with ⟨x', hx', hfx'⟩
          exact ⟨x', List.mem_cons_of_mem _ hx', hfx'⟩

theorem mapExcept_ok_of_forall (f : α → Except String β) (l : List α)
    (h : ∀ x ∈ l, ∃ y, f x = Except.ok y) :
    ∃ ys, mapExcept f l = Except.ok ys := by
  induction l with
  | nil => exact ⟨[], rfl⟩
  | cons x rest ih =>
    rcases h x (List.mem_cons_self _ _) with ⟨y, hy⟩
    rcases ih (fun x' hx' => h x' (List.mem_cons_of_mem _ hx')) with ⟨ys, hys⟩
    refine ⟨y :: ys, ?_⟩
    rw [mapExcept, hy, hys]

/-- Splitting a successful `_export_instances` run: each per-instance list
is a map over the instances in order (label names resolved in order), the
mask list is present exactly when mask export is enabled, and a non-empty
instance list implies the divisors are non-zero. -/
theorem exportInstances_ok (cfg : Config) (names : List String)
    (parts : List InstanceParts) (wd ht : ℚ) (e : Exported)
    (h : exportInstances cfg names parts wd ht = Except.ok e) :
    ∃ ns, mapExcept (fun p => getLabelName names p.leader.label) parts
        = Except.ok ns ∧
      e.xmins = parts.map (fun p => p.bbox.x / wd) ∧
      e.xmaxs = parts.map (fun p => (p.bbox.x + p.bbox.w) / wd) ∧
      e.ymins = parts.map (fun p => p.bbox.y / ht) ∧
      e.ymaxs = parts.map (fun p => (p.bbox.y + p.bbox.h) / ht) ∧
      e.classesText = ns.map (fun s => utf8Bytes (makePrintable s)) ∧
      e.classes = ns.map (fun s => mapLabelId names s) ∧
      e.masks = (if cfg.saveMasks then
          parts.map (fun p => match p.mask with
            | some m => encodeImage m
            | none => ([] : ByteStr))
        else []) ∧
      (parts ≠ [] → ¬ (wd = 0 ∨ ht = 0)) := by
  induction parts generalizing e with
  | nil =>
    have h2 : Except.ok (⟨[], [], [], [], [], [], []⟩ : Exported) = Except.ok e := h
    injection h2 with h3
    subst h3
    refine ⟨[], rfl, rfl, rfl, rfl, rfl, rfl, rfl, ?_, fun hne => absurd rfl hne⟩
    cases hs : cfg.saveMasks <;> simp
  | cons p rest ih =>
    rw [exportInstances] at h
    split at h
    next err hlab => cases h
    next label hlab =>
      split at h
      next hz => cases h
      next hz =>
        split at h
        next err hrest => cases h
        next e2 hrest =>
          injection h with h3
          subst h3
          obtain ⟨ns, hns, hx1, hx2, hy1, hy2, hct, hcl, hm, -⟩ := ih e2 hrest
          refine ⟨label :: ns, ?_, ?_, ?_, ?_, ?_, ?_, ?_, ?_, fun _ => hz⟩
          · rw [mapExcept, hlab, hns]
          · show p.bbox.x / wd :: e2.xmins = _
            rw [List.map_cons, hx1]
          · show (p.bbox.x + p.bbox.w) / wd :: e2.xmaxs = _
            rw [List.map_cons, hx2]
          · show p.bbox.y / ht :: e2.ymins = _
            rw [List.map_cons, hy1]
          · show (p.bbox.y + p.bbox.h) / ht :: e2.ymaxs = _
            rw [List.map_cons, hy2]
          · show utf8Bytes (makePrintable label) :: e2.classesText = _
            rw [List.map_cons, hct]
          · show mapLabelId names label :: e2.classes = _
            rw [List.map_cons, hcl]
          · cases hs : cfg.saveMasks with
            | false =>
              show e2.masks = _
              rw [hm, if_neg (by simp [hs]), if_neg (by simp [hs])]
            | true =>
              show (match p.mask with
                | some m => encodeImage m
                | none => []) :: e2.masks = _
              rw [hm, if_pos (by simp [hs]), if_pos (by simp [hs]), List.map_cons]

/-- Configuration with mask export enabled. -/
def cfgM : Config := { saveMasks := true }

/-- Example instance (export-level witnesses): unlabelled bbox leader with
a merged mask. -/
def pEx1 : InstanceParts :=
  { leader := { type := AnnKind.bbox, x := 0, y := 0, w := 1, h := 1, area := 1,
                group := 0, label := none },
    mask := some [[1]], bbox := ⟨0, 0, 1, 1⟩ }

/-- Example instance (export-level witnesses): unlabelled mask leader with
no merged mask. -/
def pEx2 : InstanceParts :=
  { leader := { type := AnnKind.mask, x := 0, y := 0, w := 1, h := 1, area := 1,
                group := 0, label := none },
    mask := none, bbox := ⟨0, 0, 1, 1⟩ }

/-- Example instance (C6 witness): a leader labelled with catalog index 0. -/
def pEx3 : InstanceParts :=
  { leader := { type := AnnKind.bbox, x := 0, y := 0, w := 1, h := 1, area := 1,
                group := 0, label := some 0 },
    mask := none, bbox := ⟨0, 0, 1, 1⟩ }

/-- Claim C10: for every successfully encoded instance list, the emitted
per-instance lists are parallel — xmin, xmax, ymin, ymax, class-text and
class-label all have one entry per instance, and the mask list holds
exactly one entry per instance when mask export is enabled (the encoded
merged mask, or an empty byte string for an instance with no mask) and is
empty otherwise. -/
theorem C10_parallel_lists (cfg : Config) (names : List String)
    (parts : List InstanceParts) (wd ht : ℚ) (e : Exported)
    (h : exportInstances cfg names parts wd ht = Except.ok e) :
    e.xmins.length = parts.length ∧ e.xmaxs.length = parts.length ∧
    e.ymins.length = parts.length ∧ e.ymaxs.length = parts.length ∧
    e.classesText.length = parts.length ∧ e.classes.length = parts.length ∧
    e.masks = (if cfg.saveMasks then
        parts.map (fun p => match p.mask with
          | some m => encodeImage m
          | none => ([] : ByteStr))
      else []) := by
  obtain ⟨ns, hns, hx1, hx2, hy1, hy2, hct, hcl, hm, -⟩ :=
    exportInstances_ok cfg names parts wd ht e h
  have hlen := mapExcept_ok_length _ _ _ hns
  simp [hx1, hx2, hy1, hy2, hct, hcl, hm, hlen]

/-- Witness for C10 at two instances (one with a mask, one without) under
mask export. -/
theorem C10_parallel_lists_witness :
    ([(0 : ℚ), 0]).length = [pEx1, pEx2].length ∧
    ([(1 : ℚ), 1]).length = [pEx1, pEx2].length ∧
    ([(0 : ℚ), 0]).length = [pEx1, pEx2].length ∧
    ([(1 : ℚ), 1]).length = [pEx1, pEx2].length ∧
    ([([] : ByteStr), []]).length = [pEx1, pEx2].length ∧
    ([0, 0] : List Nat).length = [pEx1, pEx2].length ∧
    ([[137, 80, 78, 71, 1], []] : List ByteStr)
      = (if cfgM.saveMasks then
          [pEx1, pEx2].map (fun p => match p.mask with
            | some m => encodeImage m
            | none => ([] : ByteStr))
        else []) :=
  C10_parallel_lists cfgM [] [pEx1, pEx2] 1 1
    ⟨[0, 0], [1, 1], [0, 0], [1, 1], [[], []], [0, 0], [[137, 80, 78, 71, 1], []]⟩
    (by simp [exportInstances, pEx1, pEx2, cfgM, getLabelName, mapLabelId, utf8Bytes,
      makePrintable, encodeImage] <;> norm_num)

/-- Claim C6: the class-text entries are, in instance order, the UTF-8
encodings of the resolved label names with exactly the characters outside
the printable ASCII set dropped; in particular the name "café" is stored
as the byte string "caf" (bytes 99, 97, 102). -/
theorem C6_class_text_printable (cfg : Config) (names : List String)
    (parts : List InstanceParts) (wd ht : ℚ) (e : Exported)
    (h : exportInstances cfg names parts wd ht = Except.ok e) :
    (∃ ns, mapExcept (fun p => getLabelName names p.leader.label) parts
        = Except.ok ns ∧
      e.classesText = ns.map
        (fun s => utf8Bytes (String.mk (s.data.filter isPrintableAscii)))) ∧
    utf8Bytes (makePrintable "café") = [99, 97, 102] := by
  obtain ⟨ns, hns, -, -, -, -, hct, -, -, -⟩ :=
    exportInstances_ok cfg names parts wd ht e h
  exact ⟨⟨ns, hns, hct⟩, by decide⟩

/-- Witness for C6 at one instance whose label resolves to "café". -/
theorem C6_class_text_printable_witness :
    (∃ ns, mapExcept (fun p => getLabelName ["café"] p.leader.label) [pEx3]
        = Except.ok ns ∧
      ([[99, 97, 102]] : List ByteStr) = ns.map
        (fun s => utf8Bytes (String.mk (s.data.filter isPrintableAscii)))) ∧
    utf8Bytes (makePrintable "café") = [99, 97, 102] :=
  C6_class_text_printable cfg0 ["café"] [pEx3] 1 1
    ⟨[0], [1], [0], [1], [[99, 97, 102]], [1], []⟩
    (by
      have h1 : utf8Bytes (makePrintable "café") = [99, 97, 102] := by decide
      have h3 : mapLabelId ["café"] "café" = 1 := by decide
      simp [exportInstances, pEx3, cfg0, getLabelName, h1, h3] <;> norm_num)

/-- Containment of an annotation's pixel bounding rectangle inside a
width × height image. -/
def inImage (wd ht : ℚ) (a : Ann) : Prop :=
  0 ≤ a.x ∧ 0 ≤ a.y ∧ 0 ≤ a.w ∧ 0 ≤ a.h ∧ a.x + a.w ≤ wd ∧ a.y + a.h ≤ ht

/-- When every bbox/mask-kind input annotation lies inside the image, every
instance bbox of the pipeline lies inside the image as well. -/
theorem instanceParts_bbox_bounds (cfg : Config) (anns : List Ann) (wd ht : ℚ)
    (hin : ∀ a ∈ anns, (a.type = AnnKind.bbox ∨ a.type = AnnKind.mask) →
      inImage wd ht a)
    (parts : List InstanceParts)
    (hparts : mapExcept (findInstanceParts cfg) (findInstances anns)
      = Except.ok parts) :
    ∀ p ∈ parts,
      0 ≤ p.bbox.x ∧ p.bbox.x ≤ wd ∧
      0 ≤ p.bbox.x + p.bbox.w ∧ p.bbox.x + p.bbox.w ≤ wd ∧
      0 ≤ p.bbox.y ∧ p.bbox.y ≤ ht ∧
      0 ≤ p.bbox.y + p.bbox.h ∧ p.bbox.y + p.bbox.h ≤ ht := by
  intro p hp
  rcases mapExcept_ok_mem _ _ _ hparts p hp with ⟨grp, hgrp, hok⟩
  obtain ⟨hl, hbb, -⟩ := findInstanceParts_ok cfg grp p hok
  have hne : boxesOf grp ++ masksOf grp ≠ [] := by
    intro hnil
    rw [hnil] at hl
    simp [findGroupLeader] at hl
  have hmem : ∀ b ∈ boxesOf grp ++ masksOf grp, inImage wd ht b := by
    intro b hb
    have hbgrp : b ∈ grp ∧ (b.type = AnnKind.bbox ∨ b.type = AnnKind.mask) := by
      rcases List.mem_append.1 hb with h1 | h1
      · rcases List.mem_filter.1 h1 with ⟨hg, hk⟩
        exact ⟨hg, Or.inl (by simpa using hk)⟩
      · rcases List.mem_filter.1 h1 with ⟨hg, hk⟩
        exact ⟨hg, Or.inr (by simpa using hk)⟩
    have hbanns : b ∈ anns := by
      have h2 := mem_of_mem_expandGroups (findInstanceAnns anns) grp hgrp b hbgrp.1
      exact (List.mem_filter.1 h2).1
    exact hin b hbanns hbgrp.2
  obtain ⟨hbound, hax, hay, haxw, hayh⟩ := computeBbox_spec _ hne
  rw [hbb]
  rcases hax with ⟨bx, hbx, hbxe⟩
  rcases hay with ⟨by0, hby, hbye⟩
  rcases haxw with ⟨bxw, hbxw, hbxwe⟩
  rcases hayh with ⟨byh, hbyh, hbyhe⟩
  obtain ⟨hbx1, -, hbx3, -, hbx5, -⟩ := hmem bx hbx
  obtain ⟨-, hby2, -, hby4, -, hby6⟩ := hmem by0 hby
  obtain ⟨hw1, -, hw3, -, hw5, -⟩ := hmem bxw hbxw
  obtain ⟨-, hh2, -, hh4, -, hh6⟩ := hmem byh hbyh
  refine ⟨?_, ?_, ?_, ?_, ?_, ?_, ?_, ?_⟩
  · linarith [hbxe]
  · linarith [hbxe]
  · linarith [hbxwe]
  · linarith [hbxwe]
  · linarith [hbye]
  · linarith [hbye]
  · linarith [hbyhe]
  · linarith [hbyhe]

/-- Claim C7: for an item with positive pixel width and height whose
bbox/mask-kind annotations all lie inside the image, every normalized
coordinate emitted for that item lies in the closed interval [0, 1]. -/
theorem C7_normalized_unit_interval (cfg : Config) (names : List String)
    (item : Item) (img : Image) (parts : List InstanceParts) (e : Exported)
    (himg : item.image = some img)
    (hw : 0 < (img.size.2 : ℚ)) (hh : 0 < (img.size.1 : ℚ))
    (hin : ∀ a ∈ item.anns, (a.type = AnnKind.bbox ∨ a.type = AnnKind.mask) →
      inImage (img.size.2 : ℚ) (img.size.1 : ℚ) a)
    (hparts : mapExcept (findInstanceParts cfg) (findInstances item.anns)
      = Except.ok parts)
    (hexp : exportInstances cfg names parts (img.size.2 : ℚ) (img.size.1 : ℚ)
      = Except.ok e) :
    ∀ v ∈ e.xmins ++ e.xmaxs ++ e.ymins ++ e.ymaxs, 0 ≤ v ∧ v ≤ 1 := by
  obtain ⟨ns, -, hx1, hx2, hy1, hy2, -, -, -, -⟩ :=
    exportInstances_ok cfg names parts _ _ e hexp
  have hb := instanceParts_bbox_bounds cfg item.anns _ _ hin parts hparts
  intro v hv
  rcases List.mem_append.1 hv with hv123 | hv4
  · rcases List.mem_append.1 hv123 with hv12 | hv3
    · rcases List.mem_append.1 hv12 with hv1 | hv2
      · rw [hx1] at hv1
        rcases List.mem_map.1 hv1 with ⟨p, hp, rfl⟩
        obtain ⟨h1, h2, -, -, -, -, -, -⟩ := hb p hp
        exact ⟨div_nonneg h1 (le_of_lt hw), (div_le_one hw).2 h2⟩
      · rw [hx2] at hv2
        rcases List.mem_map.1 hv2 with ⟨p, hp, rfl⟩
        obtain ⟨-, -, h3, h4, -, -, -, -⟩ := hb p hp
        exact ⟨div_nonneg h3 (le_of_lt hw), (div_le_one hw).2 h4⟩
    · rw [hy1] at hv3
      rcases List.mem_map.1 hv3 with ⟨p, hp, rfl⟩
      obtain ⟨-, -, -, -, h5, h6, -, -⟩ := hb p hp
      exact ⟨div_nonneg h5 (le_of_lt hh), (div_le_one hh).2 h6⟩
  · rw [hy2] at hv4
    rcases List.mem_map.1 hv4 with ⟨p, hp, rfl⟩
    obtain ⟨-, -, -, -, -, -, h7, h8⟩ := hb p hp
    exact ⟨div_nonneg h7 (le_of_lt hh), (div_le_one hh).2 h8⟩

/-- Example input (C7 witness): a full-image bbox annotation. -/
def annEx7 : Ann :=
  { type := AnnKind.bbox, x := 0, y := 0, w := 10, h := 10, area := 100, group := 0 }

/-- Example input (C7 witness): a 10 × 10 image. -/
def imgEx7 : Image := { size := (10, 10) }

/-- Example input (C7 witness): an item holding the full-image bbox. -/
def itemEx7 : Item := { id := "w7", image := some imgEx7, anns := [annEx7] }

/-- Witness for C7: the normalized coordinate 1 emitted for `itemEx7` lies
in [0, 1]. -/
theorem C7_normalized_unit_interval_witness : 0 ≤ (1 : ℚ) ∧ (1 : ℚ) ≤ 1 :=
  C7_normalized_unit_interval cfg0 [] itemEx7 imgEx7
    [⟨annEx7, none, ⟨0, 0, 10, 10⟩⟩] ⟨[0], [1], [0], [1], [[]], [0], []⟩
    rfl (by norm_num [imgEx7]) (by norm_num [imgEx7])
    (by
      intro a ha hk
      rcases List.mem_singleton.1 ha with rfl
      norm_num [inImage, annEx7, imgEx7])
    (by simp [findInstances, findInstanceAnns, groupByKey, expandGroups,
      findInstanceParts, findGroupLeader, computeBbox, minD, maxD, boxesOf, masksOf,
      mapExcept, annEx7, itemEx7, cfg0, Ann.get_area, Ann.get_bbox] <;> norm_num)
    (by simp [exportInstances, getLabelName, mapLabelId, utf8Bytes, makePrintable,
      annEx7, imgEx7, cfg0] <;> norm_num)
    1 (by norm_num)

/-- A label reference is within the catalog (or absent). -/
def labelIdxOk (names : List String) : Option Nat → Bool
  | none => true
  | some i => decide (i < names.length)

theorem getLabelName_ok_of_idxOk (names : List String) (lab : Option Nat)
    (h : labelIdxOk names lab = true) :
    ∃ s, getLabelName names lab = Except.ok s := by
  cases lab with
  | none => exact ⟨"", rfl⟩
  | some i =>
    have hi : i < names.length := by simpa [labelIdxOk] using h
    refine ⟨names[i], ?_⟩
    simp [getLabelName, List.getElem?_eq_getElem hi]

/-- A non-empty group made of bbox/mask-kind annotations always yields
instance parts. -/
theorem findInstanceParts_ok_of (cfg : Config) (grp : List Ann)
    (hne : grp ≠ [])
    (hkind : ∀ a ∈ grp, a.type = AnnKind.bbox ∨ a.type = AnnKind.mask) :
    ∃ parts, findInstanceParts cfg grp = Except.ok parts := by
  have hanne : boxesOf grp ++ masksOf grp ≠ [] := by
    cases grp with
    | nil => exact absurd rfl hne
    | cons a rest =>
      rcases hkind a (List.mem_cons_self _ _) with hk | hk
      · exact List.ne_nil_of_mem (List.mem_append_left _
          (List.mem_filter.2 ⟨List.mem_cons_self _ _, by simp [hk]⟩))
      · exact List.ne_nil_of_mem (List.mem_append_right _
          (List.mem_filter.2 ⟨List.mem_cons_self _ _, by simp [hk]⟩))
  cases hl : findGroupLeader (boxesOf grp ++ masksOf grp) with
  | none => exact absurd ((findGroupLeader_eq_none_iff _).1 hl) hanne
  | some m =>
    cases hres : findInstanceParts cfg grp with
    | ok p => exact ⟨p, rfl⟩
    | error err =>
      exfalso
      simp only [findInstanceParts, hl] at hres
      cases hres

/-- With non-zero divisors and in-catalog leader labels,
`_export_instances` always succeeds. -/
theorem exportInstances_ok_of (cfg : Config) (names : List String)
    (parts : List InstanceParts) (wd ht : ℚ)
    (hz : ¬ (wd = 0 ∨ ht = 0))
    (hlab : ∀ p ∈ parts, labelIdxOk names p.leader.label = true) :
    ∃ e, exportInstances cfg names parts wd ht = Except.ok e := by
  induction parts with
  | nil => exact ⟨⟨[], [], [], [], [], [], []⟩, rfl⟩
  | cons p rest ih =>
    rcases getLabelName_ok_of_idxOk names p.leader.label
      (hlab p (List.mem_cons_self _ _)) with ⟨s, hs⟩
    rcases ih (fun p' hp' => hlab p' (List.mem_cons_of_mem _ hp')) with ⟨e2, he2⟩
    cases hres : exportInstances cfg names (p :: rest) wd ht with
    | ok e => exact ⟨e, rfl⟩
    | error err =>
      exfalso
      rw [exportInstances] at hres
      simp only [hs, if_neg hz, he2] at hres
      cases hres

/-- Claim C8: conversion of an item that has image size metadata (of
positive dimensions) and whose annotation label references stay within the
catalog never raises: empty annotation lists, absent (unmapped) labels and
ungrouped annotations are all handled by default values. -/
theorem C8_never_raises (cfg : Config) (names : List String) (item : Item)
    (img : Image) (himg : item.image = some img)
    (hw : 0 < img.size.2) (hh : 0 < img.size.1)
    (hlab : ∀ a ∈ item.anns, labelIdxOk names a.label = true) :
    ∃ r, makeTfExample cfg names item = Except.ok r := by
  have hgrp : ∀ grp ∈ findInstances item.anns,
      ∃ p, findInstanceParts cfg grp = Except.ok p := by
    intro grp hgrp
    refine findInstanceParts_ok_of cfg grp (expandGroups_ne_nil _ grp hgrp) ?_
    intro a ha
    have h2 := mem_of_mem_expandGroups (findInstanceAnns item.anns) grp hgrp a ha
    have h3 := (List.mem_filter.1 h2).2
    exact by simpa using h3
  rcases mapExcept_ok_of_forall _ _ hgrp with ⟨parts, hparts⟩
  have hpl : ∀ p ∈ parts, labelIdxOk names p.leader.label = true := by
    intro p hp
    rcases mapExcept_ok_mem _ _ _ hparts p hp with ⟨grp, hgrpmem, hok⟩
    obtain ⟨hl, -, -⟩ := findInstanceParts_ok cfg grp p hok
    obtain ⟨hmem, -, -⟩ := findGroupLeader_spec _ _ hl
    have hpgrp : p.leader ∈ grp := by
      rcases List.mem_append.1 hmem with h1 | h1
      · exact (List.mem_filter.1 h1).1
      · exact (List.mem_filter.1 h1).1
    have hpanns : p.leader ∈ item.anns := by
      have h2 := mem_of_mem_expandGroups (findInstanceAnns item.anns) grp hgrpmem
        p.leader hpgrp
      exact (List.mem_filter.1 h2).1
    exact hlab p.leader hpanns
  have hz : ¬ ((img.size.2 : ℚ) = 0 ∨ (img.size.1 : ℚ) = 0) := by
    push_neg
    constructor
    · exact Nat.cast_ne_zero.2 (Nat.pos_iff_ne_zero.1 hw)
    · exact Nat.cast_ne_zero.2 (Nat.pos_iff_ne_zero.1 hh)
  rcases exportInstances_ok_of cfg names parts _ _ hz hpl with ⟨e, he⟩
  cases hres : makeTfExample cfg names item with
  | ok r => exact ⟨r, rfl⟩
  | error err =>
    exfalso
    simp only [makeTfExample, himg, hparts, he] at hres
    cases hres

/-- Example input (C8 witness): an item with image size, an ungrouped bbox
annotation and no label reference. -/
def itemEx8 : Item :=
  { id := "w8", image := some { size := (4, 5) },
    anns := [{ type := AnnKind.bbox, x := 1, y := 1, w := 2, h := 2, area := 4,
               group := 0, label := none }] }

/-- Witness for C8 at an item with image size, an unlabelled annotation and
an empty catalog. -/
theorem C8_never_raises_witness :
    ∃ r, makeTfExample cfg0 [] itemEx8 = Except.ok r :=
  C8_never_raises cfg0 [] itemEx8 { size := (4, 5) } rfl (by decide) (by decide)
    (by decide)

/-- Claim C5: an item with no image metadata is a fatal error: the message
names the item id, no record is written for that item, and processing of
the rest of the subset stops — the records written are exactly those of the
items before it. -/
theorem C5_missing_image_aborts (cfg : Config) (names : List String)
    (pre : List Item) (bad : Item) (post : List Item)
    (rs : List (List (String × Feature)))
    (hpre : mapExcept (makeTfExample cfg names) pre = Except.ok rs)
    (hbad : bad.image = none) :
    processSubset cfg names (pre ++ bad :: post)
      = (rs, some ("Failed to export dataset item '" ++ bad.id
          ++ "': item has no image info")) := by
  have hbadE : makeTfExample cfg names bad
      = Except.error ("Failed to export dataset item '" ++ bad.id
        ++ "': item has no image info") := by
    rw [makeTfExample, hbad]
  induction pre generalizing rs with
  | nil =>
    have h2 : (Except.ok [] : Except String (List (List (String × Feature))))
        = Except.ok rs := hpre
    injection h2 with h3
    subst h3
    rw [List.nil_append, processSubset, hbadE]
  | cons it pre ih =>
    rw [mapExcept] at hpre
    cases hit : makeTfExample cfg names it with
    | error err =>
      rw [hit] at hpre
      have h2 : (Except.error err
          : Except String (List (List (String × Feature)))) = Except.ok rs := hpre
      cases h2
    | ok r =>
      rw [hit] at hpre
      cases hrest : mapExcept (makeTfExample cfg names) pre with
      | error err =>
        rw [hrest] at hpre
        have h2 : (Except.error err
            : Except String (List (List (String × Feature)))) = Except.ok rs := hpre
        cases h2
      | ok rs2 =>
        rw [hrest] at hpre
        have h2 : (Except.ok (r :: rs2)
            : Except String (List (List (String × Feature)))) = Except.ok rs := hpre
        injection h2 with h3
        subst h3
        rw [List.cons_append, processSubset, hit, ih rs2 hrest]

/-- Example input (C5 witness): an item that converts successfully. -/
def goodEx5 : Item := { id := "g", image := some { size := (2, 3) }, anns := [] }

/-- Example input (C5 witness): an item with no image metadata. -/
def badEx5 : Item := { id := "bad" }

/-- Example input (C5 witness): an item after the failing one; no record of
it is written. -/
def postEx5 : Item := { id := "p", image := some { size := (1, 1) }, anns := [] }

/-- Witness for C5: the run over `[goodEx5, badEx5, postEx5]` writes only
the first item's record and aborts with a message naming "bad". -/
theorem C5_missing_image_aborts_witness :
    processSubset cfg0 [] [goodEx5, badEx5, postEx5]
      = ([[("image/source_id", Feature.bytesList [[103]]),
           ("image/filename", Feature.bytesList [[103, 46, 106, 112, 103]]),
           ("image/height", Feature.int64List [2]),
           ("image/width", Feature.int64List [3]),
           ("image/encoded", Feature.bytesList [[]]),
           ("image/format", Feature.bytesList [[]])]],
         some "Failed to export dataset item 'bad': item has no image info") :=
  C5_missing_image_aborts cfg0 [] [goodEx5] badEx5 [postEx5]
    [[("image/source_id", Feature.bytesList [[103]]),
      ("image/filename", Feature.bytesList [[103, 46, 106, 112, 103]]),
      ("image/height", Feature.int64List [2]),
      ("image/width", Feature.int64List [3]),
      ("image/encoded", Feature.bytesList [[]]),
      ("image/format", Feature.bytesList [[]])]]
    (by decide) rfl
